import Mathlib

/-!
Verification development for the `assignment` retrieval core
(`document_processor.py`, `conversational_qa.py`, `access_control.py`).

Modelling conventions:
* Python floats are modelled as rationals (`ℚ`); the IEEE value NaN, which
  arises in the source only from the division `0.0 / 0.0` in the cosine
  similarity computation, is modelled by `none` in `SimVal := Option ℚ`.
* `numpy.sqrt` (inside `np.linalg.norm`) returns an irrational float in
  general, so the development is parametrised by a function `sqrt : ℚ → ℚ`;
  the property of IEEE sqrt that matters (`sqrt x = 0 ↔ x = 0` on the
  non-negative inputs produced by sums of squares) is assumed explicitly
  where a theorem needs it.
* The embedding model (`SentenceTransformer.encode`) is a black-box
  collaborator; it is modelled as a parameter `encode : String → List ℚ`.
* Python sets of document labels are modelled as lists with membership
  semantics; Python dicts are modelled as association lists in key
  insertion order.
* `np.argsort` is modelled as a stable ascending sort of indices in which
  NaN compares greater than every number (numpy places NaN last in an
  ascending sort).
-/

/-- `Option ℚ` as the model of a float similarity value; `none` models NaN. -/
abbrev SimVal := Option ℚ

/-- Ascending comparison used by the model of `np.argsort`: NaN (`none`)
sorts after every number, and after other NaN values. -/
def leSimVal : SimVal → SimVal → Bool
  | _, none => true
  | none, some _ => false
  | some a, some b => decide (a ≤ b)

theorem leSimVal_total (x y : SimVal) : leSimVal x y = true ∨ leSimVal y x = true := by
  cases x <;> cases y <;> simp [leSimVal]
  exact le_total _ _

theorem leSimVal_trans {x y z : SimVal} (h1 : leSimVal x y = true)
    (h2 : leSimVal y z = true) : leSimVal x z = true := by
  cases x <;> cases y <;> cases z <;> simp_all [leSimVal]
  exact le_trans h1 h2

theorem leSimVal_refl (x : SimVal) : leSimVal x x = true := by
  cases x <;> simp [leSimVal]

/-- Python `str.join` (`sep.join(parts)`). -/
def pyJoin (sep : String) : List String → String
  | [] => ""
  | [a] => a
  | a :: b :: rest => a ++ sep ++ pyJoin sep (b :: rest)

/-- Whether the character list `sub` is a prefix of `l`. -/
def charPrefix : List Char → List Char → Bool
  | [], _ => true
  | _ :: _, [] => false
  | a :: as, b :: bs => a == b && charPrefix as bs

/-- Substring test on character lists, used to model Python `sub in s`. -/
def charInfix (sub : List Char) : List Char → Bool
  | [] => charPrefix sub []
  | b :: bs => charPrefix sub (b :: bs) || charInfix sub bs

/-- Python substring containment `sub in s`. -/
def pyIn (sub s : String) : Bool := charInfix sub.toList s.toList

/-- Python `str.lower()`, modelled character-wise (exact for the ASCII
strings this program handles). -/
def pyLower (s : String) : String := String.mk (s.toList.map Char.toLower)

/-- Python `str.upper()`, modelled character-wise. -/
def pyUpper (s : String) : String := String.mk (s.toList.map Char.toUpper)

/-- Embedding vectors, modelled as rational lists. -/
abbrev Vec := List ℚ

/-- Dot product, modelling `np.dot` on one row. -/
def dotProd (a b : Vec) : ℚ := (List.zipWith (fun x y => x * y) a b).sum

/-- Sum of squares of a vector; its square root is `np.linalg.norm`. -/
def sumSq (a : Vec) : ℚ := dotProd a a

/-- One entry of the source line
`similarities = np.dot(self.embeddings, query_embedding) /
 (np.linalg.norm(self.embeddings, axis=1) * np.linalg.norm(query_embedding))`.
When the denominator is zero the float division yields NaN (the numerator is
then also zero for an IEEE sqrt), modelled as `none`. -/
def cosineSimRow (sqrt : ℚ → ℚ) (q row : Vec) : SimVal :=
  let d := sqrt (sumSq row) * sqrt (sumSq q)
  if d = 0 then none else some (dotProd row q / d)

/-- A text chunk as produced by `extract_text_from_pdf` and stored in
`DocumentIndex.chunks`. -/
structure Chunk where
  text : String
  document : String
  page : Nat
  chunk_id : Nat
deriving Repr, DecidableEq, Inhabited

/-- One element of the list returned by `DocumentIndex.search`:
`{**chunk, similarity, chunk_index}`. -/
structure SearchResult where
  text : String
  document : String
  page : Nat
  chunk_id : Nat
  similarity : SimVal
  chunk_index : Nat
deriving Repr, DecidableEq, Inhabited

/-- Build one search-result dict from a chunk, its similarity and its index. -/
def mkResult (c : Chunk) (s : SimVal) (i : Nat) : SearchResult :=
  { text := c.text, document := c.document, page := c.page,
    chunk_id := c.chunk_id, similarity := s, chunk_index := i }

/-- The in-memory index of `document_processor.DocumentIndex`:
`chunks`, `embeddings` (a matrix, `None` before the first insert) and the
`document_map` defaultdict. -/
structure DocumentIndex where
  chunks : List Chunk
  embeddings : Option (List Vec)
  document_map : List (String × List Nat)
deriving Repr, DecidableEq

/-- Insert index `i` into an index list that is already sorted ascending by
value, after every index whose value is `≤` the value of `i`.  Together with
`argsortStable` this models a stable ascending `np.argsort`. -/
def insertIdx (v : List SimVal) (i : Nat) : List Nat → List Nat
  | [] => [i]
  | j :: rest =>
      if leSimVal (v.getD j none) (v.getD i none) = true then j :: insertIdx v i rest
      else i :: j :: rest

/-- Model of `np.argsort(v)`: the indices `0, …, v.length - 1` sorted
ascending by value, stably (ties keep index order), NaN last. -/
def argsortStable (v : List SimVal) : List Nat :=
  (List.range v.length).foldl (fun acc i => insertIdx v i acc) []

/-- The similarities array computed inside `DocumentIndex.search` for a
given query string. -/
def simsOf (sqrt : ℚ → ℚ) (encode : String → Vec) (self : DocumentIndex)
    (query : String) : List SimVal :=
  (self.embeddings.getD []).map (fun row => cosineSimRow sqrt (encode query) row)

/-- The `filtered_indices` list built by the filter loop of `search`:
`for idx in range(len(self.chunks)): ... if doc_name in allowed_documents`. -/
def filteredIndices (chunks : List Chunk) (F : List String) : List Nat :=
  (List.range chunks.length).filter
    (fun i => decide ((chunks.getD i default).document ∈ F))

/-- `np.argsort(v)[::-1][:k]`, the descending top-`k` index selection. -/
def topIdx (v : List SimVal) (k : Nat) : List Nat :=
  (argsortStable v).reverse.take k

/-- `DocumentIndex.search(query, top_k, allowed_documents)` from
`document_processor.py`.  `allowed_documents = none` models Python `None`
(no restriction); `some F` models an explicit set of labels. -/
def DocumentIndex.search (sqrt : ℚ → ℚ) (encode : String → Vec)
    (self : DocumentIndex) (query : String) (top_k : Nat)
    (allowed_documents : Option (List String)) : List SearchResult :=
  if self.chunks = [] ∨ self.embeddings = none then []
  else if allowed_documents = some ([] : List String) then []
  else
    let sims := simsOf sqrt encode self query
    match allowed_documents with
    | some F =>
        let filtered_indices := filteredIndices self.chunks F
        if filtered_indices = [] then []
        else
          let filtered_similarities := filtered_indices.map (fun i => sims.getD i none)
          let top_indices := (topIdx filtered_similarities top_k).map
            (fun p => filtered_indices.getD p 0)
          top_indices.map (fun i => mkResult (self.chunks.getD i default) (sims.getD i none) i)
    | none =>
        let top_indices := topIdx sims top_k
        top_indices.map (fun i => mkResult (self.chunks.getD i default) (sims.getD i none) i)

/-- State-threaded view of the `search` method call: the body of
`DocumentIndex.search` only reads `self.chunks` and `self.embeddings`
(and never touches `self.document_map`), it contains no assignment to any
attribute of `self`, so the post-state of the method equals the pre-state. -/
def DocumentIndex.searchCall (sqrt : ℚ → ℚ) (encode : String → Vec)
    (self : DocumentIndex) (query : String) (top_k : Nat)
    (allowed_documents : Option (List String)) : List SearchResult × DocumentIndex :=
  (self.search sqrt encode query top_k allowed_documents, self)

/-! ## Conversation manager (`conversational_qa.ConversationManager`) -/

/-- One entry of a per-user conversation history:
a dict with query, answer and context fields. -/
structure Turn where
  query : String
  answer : String
  context : String
deriving Repr, DecidableEq

/-- The `self.conversations` dict, modelled as an association list in key
insertion order. -/
abbrev ConvState := List (String × List Turn)

/-- Python `user_email in self.conversations`. -/
def dictMem (conv : ConvState) (user_email : String) : Bool :=
  conv.any (fun p => p.1 == user_email)

/-- `ConversationManager.get_conversation_history`:
`self.conversations.get(user_email, [])`. -/
def get_conversation_history (conv : ConvState) (user_email : String) : List Turn :=
  match conv.find? (fun p => p.1 == user_email) with
  | some p => p.2
  | none => []

/-- `ConversationManager.add_to_conversation`: create the user entry on
first use, then append the new turn to it. -/
def add_to_conversation (conv : ConvState) (user_email query answer context : String) :
    ConvState :=
  let conv1 := if dictMem conv user_email then conv else conv ++ [(user_email, [])]
  conv1.map (fun p =>
    if p.1 == user_email then (p.1, p.2 ++ [⟨query, answer, context⟩]) else p)

/-- `ConversationManager.clear_conversation`: reset the entry to `[]` when
the user has one, otherwise leave the dict untouched. -/
def clear_conversation (conv : ConvState) (user_email : String) : ConvState :=
  if dictMem conv user_email then
    conv.map (fun p => if p.1 == user_email then (p.1, ([] : List Turn)) else p)
  else conv

/-- The two lines the loop body of `build_context_string` appends for one
history entry (the answer text is cut to 200 characters and `"..."` is
appended unconditionally). -/
def contextPartsOf (e : Turn) : List String :=
  ["Previous question: " ++ e.query, "Previous answer: " ++ e.answer.take 200 ++ "..."]

/-- `ConversationManager.build_context_string(user_email, max_entries)`.
`history[-max_entries:]` takes the last `max_entries` entries, except that
Python `history[-0:]` is the whole list. -/
def build_context_string (conv : ConvState) (user_email : String) (max_entries : Nat) :
    String :=
  let history := get_conversation_history conv user_email
  if history = [] then ""
  else
    let recent := if max_entries = 0 then history
      else history.drop (history.length - max_entries)
    pyJoin "\n" (recent.flatMap contextPartsOf)

/-! ## Access control (`access_control.py`) -/

/-- The static `USER_DOCUMENT_ACCESS` table. -/
def USER_DOCUMENT_ACCESS : List (String × List String) :=
  [("alice@email.com", ["company_a_earnings.pdf"]),
   ("bob@email.com", ["company_b_earnings.pdf", "company_c_earnings.pdf"]),
   ("charlie@email.com", ["company_d_earnings.pdf", "company_e_earnings.pdf"]),
   ("aakash@email.com", ["company_a_earnings.pdf"]),
   ("test1@email.com", ["company_b_earnings.pdf", "company_c_earnings.pdf"]),
   ("test2@email.com", ["company_a_earnings.pdf", "company_b_earnings.pdf"])]

/-- `access_control.get_user_documents`: `USER_DOCUMENT_ACCESS.get(user, [])`. -/
def get_user_documents (user_email : String) : List String :=
  match USER_DOCUMENT_ACCESS.find? (fun p => p.1 == user_email) with
  | some p => p.2
  | none => []

/-- `access_control.get_allowed_documents_set`: `set(get_user_documents(u))`.
The set is modelled as the underlying label list (the source list has no
duplicates); only membership and joining are performed on it. -/
def get_allowed_documents_set (user_email : String) : List String :=
  get_user_documents user_email

/-! ## Conversational QA (`conversational_qa.ConversationalQA.answer_query`) -/

/-- The literal `company_mapping` dict, in insertion order. -/
def company_mapping : List (String × String) :=
  [("company_a", "company_a_earnings.pdf"),
   ("company_b", "company_b_earnings.pdf"),
   ("company_c", "company_c_earnings.pdf"),
   ("company_d", "company_d_earnings.pdf"),
   ("company_e", "company_e_earnings.pdf"),
   ("company a", "company_a_earnings.pdf"),
   ("company b", "company_b_earnings.pdf"),
   ("company c", "company_c_earnings.pdf"),
   ("company d", "company_d_earnings.pdf"),
   ("company e", "company_e_earnings.pdf")]

/-- The document-name list of the `for doc_name in [...]` extension loop. -/
def docNameList : List String :=
  ["company_a_earnings.pdf", "company_b_earnings.pdf", "company_c_earnings.pdf",
   "company_d_earnings.pdf", "company_e_earnings.pdf"]

/-- The two replace calls stripping the earnings/pdf suffixes from a document name. -/
def docBase (doc_name : String) : String :=
  (doc_name.replace "_earnings.pdf" "").replace ".pdf" ""

/-- The loop extending `company_mapping` with filename stems: an entry is
added only when the stem occurs in the query and the document is not yet a
value of the mapping. -/
def extendMapping (query_lower : String) : List (String × String) :=
  docNameList.foldl
    (fun m doc_name =>
      if pyIn (docBase doc_name) query_lower &&
          !(m.any (fun p => p.2 == doc_name)) then
        m ++ [(docBase doc_name, doc_name)]
      else m)
    company_mapping

/-- The `mentioned_companies` list: mapping entries whose key occurs in the
lowercased query. -/
def mentionedCompanies (query_lower : String) : List (String × String) :=
  (extendMapping query_lower).filter (fun p => pyIn p.1 query_lower)

/-- The `unauthorized_mentions` list built from a query and an
allowed-document list: upper-cased names of mentioned companies whose
document is not allowed.  (The source computes it only when
`mentioned_companies` is non-empty; when that list is empty this is empty
as well, so the refusal condition is exactly this list being non-empty.) -/
def unauthorizedMentions (query : String) (allowed_docs : List String) : List String :=
  ((mentionedCompanies (pyLower query)).filter
    (fun p => !(allowed_docs.contains p.2))).map (fun p => pyUpper p.1)

/-- The refusal answer of the early-rejection branch. -/
def refusalAnswer (unauthorized allowed_docs : List String) : String :=
  "I don\x27t have access to information about " ++ pyJoin ", " unauthorized ++
  ". I can only search within the documents you have access to: " ++
  pyJoin ", " allowed_docs ++
  ". Please ask questions about the companies I have access to."

/-- `MIN_SIMILARITY_THRESHOLD = 0.40`. -/
def MIN_SIMILARITY_THRESHOLD : ℚ := mkRat 2 5

/-- The comparison of a result similarity against MIN_SIMILARITY_THRESHOLD; an IEEE
comparison with NaN is false, so a NaN similarity never passes. -/
def passesThreshold (s : SimVal) : Bool :=
  match s with
  | none => false
  | some a => decide (MIN_SIMILARITY_THRESHOLD ≤ a)

/-- One source entry holding document, page and similarity.
The source formats the similarity with `f"{...:.2f}"`; the model keeps the
value itself. -/
structure SourceEntry where
  document : String
  page : Nat
  similarity : SimVal
deriving Repr, DecidableEq

/-- The answer of the branch where no result passes the threshold. -/
def thresholdMessage (allowed_docs : List String) : String :=
  "I couldn\x27t find highly relevant information in the documents you have access to (" ++
  pyJoin ", " allowed_docs ++
  "). The search results didn\x27t meet the relevance threshold (minimum similarity: 0.40). Please try rephrasing your question or asking about topics that might be in your accessible documents."

/-- The answer of the branch where the search returned nothing at all. -/
def noResultsMessage : String :=
  "I couldn\x27t find relevant information in the documents you have access to. Please try rephrasing your question."

/-- The two result filters of the answer-building block: the
defense-in-depth filter (`doc_name in allowed_docs`) followed by the
similarity-threshold filter. -/
def survivorsOf (allowed_docs : List String)
    (search_results : List SearchResult) : List SearchResult :=
  (search_results.filter (fun r => allowed_docs.contains r.document)).filter
    (fun r => passesThreshold r.similarity)

/-- The answer-building block run when `search_results` is non-empty:
defense-in-depth filter against `allowed_docs`, similarity-threshold
filter, then either composition of the top 3 surviving chunks (answer
truncated to 1000 characters with an ellipsis) or the below-threshold
message. -/
def composeFromResults (allowed_docs : List String)
    (search_results : List SearchResult) : String × List SourceEntry :=
  let high_similarity_results := survivorsOf allowed_docs search_results
  if high_similarity_results ≠ [] then
    let top := high_similarity_results.take 3
    let answer := pyJoin "\n\n" (top.map (fun r => r.text))
    let answer := if answer.length > 1000 then answer.take 1000 ++ "..." else answer
    (answer, top.map (fun r => ⟨r.document, r.page, r.similarity⟩))
  else
    (thresholdMessage allowed_docs, [])

/-- The context-fused query text of step 3. -/
def fusedQuery (query context_string : String) : String :=
  query ++ "\n\nContext from previous conversation:\n" ++ context_string

/-- Stages 3–5 of `answer_query`: context fusion, retrieval with
`top_k = 3`, and the retry with the raw query when the fused retrieval
found nothing.  Returns the final result list, the final `context_used`
flag and the list of query texts passed to `DocumentIndex.search`, in
call order. -/
def retrievalStage (sqrt : ℚ → ℚ) (encode : String → Vec) (idx : DocumentIndex)
    (conv : ConvState) (user_email query : String) (use_context : Bool)
    (allowed_docs : List String) : List SearchResult × Bool × List String :=
  let fusion :=
    if use_context then
      let context_string := build_context_string conv user_email 3
      if context_string ≠ "" then (fusedQuery query context_string, true)
      else (query, false)
    else (query, false)
  let enhanced_query := fusion.1
  let context_used := fusion.2
  let search_results := idx.search sqrt encode enhanced_query 3 (some allowed_docs)
  if search_results = [] ∧ context_used = true then
    (idx.search sqrt encode query 3 (some allowed_docs), false, [enhanced_query, query])
  else
    (search_results, context_used, [enhanced_query])

/-- The record returned by the model of `answer_query`: the returned dict,
the post-state of the conversation dict, and the ghost trace of search
calls. -/
structure AnswerOutcome where
  answer : String
  sources : List SourceEntry
  context_used : Bool
  conv : ConvState
  searches : List String
deriving Repr, DecidableEq

/-- `ConversationalQA.answer_query(user_email, query, use_context)`.
The early unauthorized-mention branch returns before any retrieval and
before the history append; every other branch appends exactly one turn
(query, answer, semicolon-joined source documents). -/
def answer_query (sqrt : ℚ → ℚ) (encode : String → Vec) (idx : DocumentIndex)
    (conv : ConvState) (user_email query : String) (use_context : Bool) :
    AnswerOutcome :=
  let allowed_docs := get_allowed_documents_set user_email
  let unauthorized_mentions := unauthorizedMentions query allowed_docs
  if unauthorized_mentions ≠ [] then
    { answer := refusalAnswer unauthorized_mentions allowed_docs,
      sources := [], context_used := false, conv := conv, searches := [] }
  else
    let stage := retrievalStage sqrt encode idx conv user_email query use_context allowed_docs
    let search_results := stage.1
    let context_used := stage.2.1
    let composed :=
      if search_results ≠ [] then composeFromResults allowed_docs search_results
      else (noResultsMessage, [])
    let answer := composed.1
    let sources := composed.2
    let conv2 := add_to_conversation conv user_email query answer
      (pyJoin "; " (sources.map (fun s => s.document)))
    { answer := answer, sources := sources, context_used := context_used,
      conv := conv2, searches := stage.2.2 }

/-- `ConversationalQA.clear_user_conversation`. -/
def clear_user_conversation (conv : ConvState) (user_email : String) : ConvState :=
  clear_conversation conv user_email

/-! ## Properties of the argsort model -/

/-- The ordering invariant established by the stable argsort: indices are
ascending by value, and among indices whose values compare `≤` both ways
(in particular equal values) the smaller index comes first. -/
def argQ (v : List SimVal) (i j : Nat) : Prop :=
  leSimVal (v.getD i none) (v.getD j none) = true ∧
    (leSimVal (v.getD j none) (v.getD i none) = true → i < j)

theorem insertIdx_perm (v : List SimVal) (i : Nat) :
    ∀ l : List Nat, (insertIdx v i l).Perm (i :: l) := by
  intro l
  induction l with
  | nil => simp [insertIdx]
  | cons j rest ih =>
    by_cases h : leSimVal (v.getD j none) (v.getD i none) = true
    · rw [insertIdx, if_pos h]
      exact (ih.cons j).trans (List.Perm.swap i j rest)
    · rw [insertIdx, if_neg h]

theorem mem_insertIdx {v : List SimVal} {i x : Nat} {l : List Nat} :
    x ∈ insertIdx v i l ↔ x = i ∨ x ∈ l := by
  rw [(insertIdx_perm v i l).mem_iff]
  simp

theorem insertIdx_pairwise {v : List SimVal} {i : Nat} {l : List Nat}
    (hp : l.Pairwise (argQ v)) (hlt : ∀ j ∈ l, j < i) :
    (insertIdx v i l).Pairwise (argQ v) := by
  induction l with
  | nil => simp [insertIdx, List.pairwise_cons]
  | cons j rest ih =>
    rw [List.pairwise_cons] at hp
    by_cases h : leSimVal (v.getD j none) (v.getD i none) = true
    · rw [insertIdx, if_pos h, List.pairwise_cons]
      refine ⟨?_, ih hp.2 (fun x hx => hlt x (List.mem_cons_of_mem j hx))⟩
      intro x hx
      rcases mem_insertIdx.mp hx with rfl | hx2
      · exact ⟨h, fun _ => hlt j (List.mem_cons_self j rest)⟩
      · exact hp.1 x hx2
    · rw [insertIdx, if_neg h]
      have hij : leSimVal (v.getD i none) (v.getD j none) = true := by
        rcases leSimVal_total (v.getD i none) (v.getD j none) with h1 | h1
        · exact h1
        · exact absurd h1 h
      rw [List.pairwise_cons]
      refine ⟨?_, List.pairwise_cons.mpr hp⟩
      intro x hx
      rcases List.mem_cons.mp hx with rfl | hx2
      · exact ⟨hij, fun hc => absurd hc h⟩
      · refine ⟨leSimVal_trans hij (hp.1 x hx2).1, fun hc => ?_⟩
        exact absurd (leSimVal_trans (hp.1 x hx2).1 hc) h

theorem foldl_insertIdx_perm (v : List SimVal) :
    ∀ (l acc : List Nat),
      (l.foldl (fun a i => insertIdx v i a) acc).Perm (acc ++ l) := by
  intro l
  induction l with
  | nil => intro acc; simp
  | cons a t ih =>
    intro acc
    have h1 := ih (insertIdx v a acc)
    have h2 : (insertIdx v a acc ++ t).Perm (acc ++ a :: t) := by
      have hp : (insertIdx v a acc).Perm (a :: acc) := insertIdx_perm v a acc
      exact (hp.append_right t).trans List.perm_middle.symm
    simpa using h1.trans h2

theorem foldl_insertIdx_pairwise (v : List SimVal) :
    ∀ (l acc : List Nat), acc.Pairwise (argQ v) →
      (∀ j ∈ acc, ∀ i ∈ l, j < i) → l.Pairwise (· < ·) →
      (l.foldl (fun a i => insertIdx v i a) acc).Pairwise (argQ v) := by
  intro l
  induction l with
  | nil => intro acc hacc _ _; simpa using hacc
  | cons a t ih =>
    intro acc hacc hsep hl
    rw [List.pairwise_cons] at hl
    refine ih (insertIdx v a acc) ?_ ?_ hl.2
    · exact insertIdx_pairwise hacc (fun j hj => hsep j hj a (List.mem_cons_self a t))
    · intro j hj i hi
      rcases mem_insertIdx.mp hj with rfl | hj2
      · exact hl.1 i hi
      · exact hsep j hj2 i (List.mem_cons_of_mem a hi)

theorem argsortStable_perm (v : List SimVal) :
    (argsortStable v).Perm (List.range v.length) := by
  simpa [argsortStable] using foldl_insertIdx_perm v (List.range v.length) []

theorem argsortStable_pairwise (v : List SimVal) :
    (argsortStable v).Pairwise (argQ v) := by
  refine foldl_insertIdx_pairwise v (List.range v.length) [] (by simp) (by simp) ?_
  exact List.pairwise_lt_range v.length

theorem mem_argsortStable {v : List SimVal} {p : Nat} :
    p ∈ argsortStable v ↔ p < v.length := by
  rw [(argsortStable_perm v).mem_iff, List.mem_range]

theorem topIdx_pairwise (v : List SimVal) (k : Nat) :
    (topIdx v k).Pairwise (fun i j => argQ v j i) :=
  List.Pairwise.sublist (List.take_sublist k _)
    (List.pairwise_reverse.mpr (argsortStable_pairwise v))

theorem mem_topIdx_lt {v : List SimVal} {k p : Nat} (hp : p ∈ topIdx v k) :
    p < v.length := by
  have : p ∈ (argsortStable v).reverse := (List.take_sublist k _).mem hp
  exact mem_argsortStable.mp (List.mem_reverse.mp this)

theorem topIdx_length (v : List SimVal) (k : Nat) :
    (topIdx v k).length = min k v.length := by
  simp [topIdx, (argsortStable_perm v).length_eq]

theorem topIdx_optimal {v : List SimVal} {k p1 p2 : Nat}
    (h1 : p1 ∈ topIdx v k) (h2 : p2 < v.length) (h2n : p2 ∉ topIdx v k) :
    leSimVal (v.getD p2 none) (v.getD p1 none) = true := by
  set R := (argsortStable v).reverse with hR
  have hsplit : R.take k ++ R.drop k = R := List.take_append_drop k R
  have hpw : R.Pairwise (fun i j => argQ v j i) :=
    List.pairwise_reverse.mpr (argsortStable_pairwise v)
  have h2R : p2 ∈ R := List.mem_reverse.mpr (mem_argsortStable.mpr h2)
  have h2drop : p2 ∈ R.drop k := by
    rcases List.mem_append.mp (hsplit ▸ h2R) with h | h
    · exact absurd h h2n
    · exact h
  have := (List.pairwise_append.mp (hsplit ▸ hpw)).2.2 p1 h1 p2 h2drop
  exact this.1

/-! ## Helper lemmas about the filtered candidate pool -/

theorem getD_map_lt {α β : Type} [Inhabited β] (l : List α) (g : α → β) (d0 : α)
    {p : Nat} (hp : p < l.length) :
    (l.map g).getD p default = g (l.getD p d0) := by
  rw [List.getD_eq_getElem _ _ (by simpa using hp), List.getD_eq_getElem _ _ hp,
    List.getElem_map]

theorem map_getD_range {α : Type} (l : List α) (d : α) :
    (List.range l.length).map (fun i => l.getD i d) = l := by
  apply List.ext_getElem
  · simp
  · intro i h1 h2
    simp [List.getElem_map, List.getElem_range, List.getD_eq_getElem _ _ h2,
      List.getElem?_eq_getElem h2]

theorem filter_range_getD_length {α : Type} (d : α) (p : α → Bool) (l : List α) :
    ((List.range l.length).filter (fun i => p (l.getD i d))).length =
      (l.filter p).length := by
  conv_rhs => rw [← map_getD_range l d]
  rw [List.filter_map, List.length_map]
  rfl

theorem filteredIndices_sorted (chunks : List Chunk) (F : List String) :
    (filteredIndices chunks F).Pairwise (· < ·) :=
  List.Pairwise.sublist (List.filter_sublist _) (List.pairwise_lt_range chunks.length)

theorem mem_filteredIndices {chunks : List Chunk} {F : List String} {i : Nat} :
    i ∈ filteredIndices chunks F ↔
      i < chunks.length ∧ (chunks.getD i default).document ∈ F := by
  simp [filteredIndices, List.mem_filter, List.mem_range]

theorem filteredIndices_length (chunks : List Chunk) (F : List String) :
    (filteredIndices chunks F).length =
      (chunks.filter (fun c => decide (c.document ∈ F))).length := by
  unfold filteredIndices
  exact filter_range_getD_length default (fun c => decide (c.document ∈ F)) chunks

theorem filteredIndices_getD_lt {chunks : List Chunk} {F : List String}
    {p q : Nat} (hp : p < (filteredIndices chunks F).length)
    (hq : q < (filteredIndices chunks F).length) (hpq : p < q) :
    (filteredIndices chunks F).getD p 0 < (filteredIndices chunks F).getD q 0 := by
  rw [List.getD_eq_getElem _ _ hp, List.getD_eq_getElem _ _ hq]
  exact List.pairwise_iff_getElem.mp (filteredIndices_sorted chunks F) p q hp hq hpq

theorem filteredIndices_getD_mem {chunks : List Chunk} {F : List String}
    {p : Nat} (hp : p < (filteredIndices chunks F).length) :
    (filteredIndices chunks F).getD p 0 ∈ filteredIndices chunks F := by
  rw [List.getD_eq_getElem _ _ hp]
  exact List.getElem_mem hp

/-! ## Branch equations for `search` -/

theorem search_some_eq (sqrt : ℚ → ℚ) (encode : String → Vec) (idx : DocumentIndex)
    (query : String) (k : Nat) (F : List String) (E : List Vec)
    (hE : idx.embeddings = some E) (hc : idx.chunks ≠ []) (hF : F ≠ []) :
    idx.search sqrt encode query k (some F) =
      (if filteredIndices idx.chunks F = [] then []
       else
        ((topIdx ((filteredIndices idx.chunks F).map
            (fun i => (simsOf sqrt encode idx query).getD i none)) k).map
          (fun p => (filteredIndices idx.chunks F).getD p 0)).map
          (fun i => mkResult (idx.chunks.getD i default)
            ((simsOf sqrt encode idx query).getD i none) i)) := by
  unfold DocumentIndex.search
  rw [if_neg (by simp [hc, hE]), if_neg (by simp [hF])]

theorem search_none_eq (sqrt : ℚ → ℚ) (encode : String → Vec) (idx : DocumentIndex)
    (query : String) (k : Nat) (E : List Vec)
    (hE : idx.embeddings = some E) (hc : idx.chunks ≠ []) :
    idx.search sqrt encode query k none =
      (topIdx (simsOf sqrt encode idx query) k).map
        (fun i => mkResult (idx.chunks.getD i default)
          ((simsOf sqrt encode idx query).getD i none) i) := by
  unfold DocumentIndex.search
  rw [if_neg (by simp [hc, hE]), if_neg (by simp)]

/-! ## Claims about `DocumentIndex.search` -/

/-- C3: `search` returns the empty sequence whenever the store is empty
(for every filter argument), and whenever the filter is an explicit empty
set, even on a non-empty store; both branches are ordinary returns, not
errors (the model is a total function). -/
theorem C3_empty_store_and_empty_filter (sqrt : ℚ → ℚ) (encode : String → Vec)
    (idx : DocumentIndex) (query : String) (k : Nat)
    (allowed : Option (List String)) :
    (idx.chunks = [] → idx.search sqrt encode query k allowed = []) ∧
    idx.search sqrt encode query k (some ([] : List String)) = [] := by
  constructor
  · intro hc
    unfold DocumentIndex.search
    rw [if_pos (Or.inl hc)]
  · by_cases hg : idx.chunks = [] ∨ idx.embeddings = none
    · unfold DocumentIndex.search
      rw [if_pos hg]
    · unfold DocumentIndex.search
      rw [if_neg hg, if_pos rfl]

/-- Witness for C3 at a concrete empty store and at a concrete non-empty
store with an empty filter set. -/
theorem C3_empty_store_and_empty_filter_witness :
    (DocumentIndex.mk [] none []).chunks = [] ∧
    (DocumentIndex.mk [] none []).search (fun x => x) (fun _ => []) "q" 5 none = [] ∧
    (DocumentIndex.mk [⟨"t", "d.pdf", 1, 0⟩] (some [[1]]) [("d.pdf", [0])]).search
      (fun x => x) (fun _ => [1]) "q" 5 (some []) = [] := by
  refine ⟨rfl, ?_, ?_⟩
  · exact (C3_empty_store_and_empty_filter (fun x => x) (fun _ => []) _ "q" 5 none).1 rfl
  · exact (C3_empty_store_and_empty_filter (fun x => x) (fun _ => [1]) _ "q" 5 none).2

/-- C10: the `search` method call is a pure read: the post-state keeps
`chunks`, `embeddings` and `document_map` unchanged (the body contains no
assignment to `self`, and `document_map` is never even read), and a second
identical call on the post-state returns the same result list. -/
theorem C10_search_is_pure_read (sqrt : ℚ → ℚ) (encode : String → Vec)
    (idx : DocumentIndex) (query : String) (k : Nat)
    (allowed : Option (List String)) :
    (idx.searchCall sqrt encode query k allowed).2.chunks = idx.chunks ∧
    (idx.searchCall sqrt encode query k allowed).2.embeddings = idx.embeddings ∧
    (idx.searchCall sqrt encode query k allowed).2.document_map = idx.document_map ∧
    ((idx.searchCall sqrt encode query k allowed).2.searchCall
        sqrt encode query k allowed).1 =
      (idx.searchCall sqrt encode query k allowed).1 :=
  ⟨rfl, rfl, rfl, rfl⟩

/-- C1: with a non-`None` filter `F`, the document of every returned result is
in `F`, at most `top_k` results are returned, the number of results is
exactly `min top_k (size of the F-filtered candidate pool)` (so `top_k`
selects from the filtered pool, which a truncate-then-filter pipeline
would violate by under-returning), and every filtered candidate that is
not among the returned results has similarity `≤` that of every returned
result.  The store is assumed well formed: the embedding matrix exists and
has one row per chunk, which `add_document` maintains. -/
theorem C1_search_filters_before_ranking
    (sqrt : ℚ → ℚ) (encode : String → Vec) (idx : DocumentIndex)
    (query : String) (k : Nat) (F : List String) (E : List Vec)
    (hE : idx.embeddings = some E) (_hlen : E.length = idx.chunks.length) :
    (∀ r ∈ idx.search sqrt encode query k (some F), r.document ∈ F) ∧
    (idx.search sqrt encode query k (some F)).length ≤ k ∧
    (idx.search sqrt encode query k (some F)).length =
      min k (idx.chunks.filter (fun c => decide (c.document ∈ F))).length ∧
    (∀ r ∈ idx.search sqrt encode query k (some F), ∀ j < idx.chunks.length,
      (idx.chunks.getD j default).document ∈ F →
      (∀ r2 ∈ idx.search sqrt encode query k (some F), r2.chunk_index ≠ j) →
      leSimVal ((simsOf sqrt encode idx query).getD j none) r.similarity = true) := by
  by_cases hc : idx.chunks = []
  · have hres : idx.search sqrt encode query k (some F) = [] := by
      unfold DocumentIndex.search
      rw [if_pos (Or.inl hc)]
    rw [hres, hc]
    simp
  by_cases hF : F = []
  · subst hF
    have hres : idx.search sqrt encode query k (some []) = [] := by
      unfold DocumentIndex.search
      rw [if_neg (by simp [hc, hE]), if_pos rfl]
    rw [hres]
    simp
  rw [search_some_eq sqrt encode idx query k F E hE hc hF]
  set FI := filteredIndices idx.chunks F with hFI
  set sims := simsOf sqrt encode idx query with hsims
  set fsims := FI.map (fun i => sims.getD i none) with hfsims
  have hflen : fsims.length = FI.length := List.length_map _ _
  by_cases hFIe : FI = []
  · rw [if_pos hFIe]
    have : FI.length = 0 := by rw [hFIe]; rfl
    rw [← filteredIndices_length idx.chunks F, ← hFI, this]
    simp
  rw [if_neg hFIe]
  have halign : ∀ p, p < FI.length → fsims.getD p none = sims.getD (FI.getD p 0) none := by
    intro p hp
    rw [hfsims]
    exact getD_map_lt FI (fun i => sims.getD i none) 0 hp
  have hmm : ∀ r, r ∈ ((topIdx fsims k).map (fun p => FI.getD p 0)).map
      (fun i => mkResult (idx.chunks.getD i default) (sims.getD i none) i) ↔
      ∃ p ∈ topIdx fsims k,
        mkResult (idx.chunks.getD (FI.getD p 0) default) (sims.getD (FI.getD p 0) none)
          (FI.getD p 0) = r := by
    intro r
    rw [List.map_map]
    simp [List.mem_map, Function.comp]
  refine ⟨?_, ?_, ?_, ?_⟩
  · intro r hr
    obtain ⟨p, hp, hpr⟩ := (hmm r).mp hr
    have hplt : p < FI.length := by
      have := mem_topIdx_lt hp
      omega
    have hmem : FI.getD p 0 ∈ FI := filteredIndices_getD_mem hplt
    have hdoc := (mem_filteredIndices.mp hmem).2
    rw [← hpr]
    exact hdoc
  · rw [List.length_map, List.length_map, topIdx_length]
    exact Nat.min_le_left _ _
  · rw [List.length_map, List.length_map, topIdx_length, hflen,
      filteredIndices_length idx.chunks F]
  · intro r hr j hj hjF hnot
    obtain ⟨p1, hp1, hp1r⟩ := (hmm r).mp hr
    have hp1lt : p1 < FI.length := by
      have := mem_topIdx_lt hp1
      omega
    have hjFI : j ∈ FI := mem_filteredIndices.mpr ⟨hj, hjF⟩
    obtain ⟨p2, hp2len, hp2⟩ := List.mem_iff_getElem.mp hjFI
    have hp2get : FI.getD p2 0 = j := by
      rw [List.getD_eq_getElem _ _ hp2len, hp2]
    have hp2nin : p2 ∉ topIdx fsims k := by
      intro hin
      refine hnot _ ((hmm _).mpr ⟨p2, hin, rfl⟩) ?_
      exact hp2get
    have hopt := topIdx_optimal hp1 (by omega : p2 < fsims.length) hp2nin
    rw [halign p2 hp2len, halign p1 hp1lt, hp2get] at hopt
    have hsim : r.similarity = sims.getD (FI.getD p1 0) none := by
      rw [← hp1r]
      rfl
    rw [hsim]
    exact hopt

/-! ## Concrete sample stores used by witnesses and counterexamples -/

/-- A sqrt stand-in that is exact on the inputs 0 and 1 used below. -/
def sqrtId : ℚ → ℚ := fun x => x

/-- A constant embedder producing the one-dimensional vector `[1]`. -/
def encodeOne : String → Vec := fun _ => [1]

/-- A two-document sample store with one chunk per document and unit
embedding rows. -/
def sampleIdx : DocumentIndex :=
  ⟨[⟨"text a", "a.pdf", 1, 0⟩, ⟨"text b", "b.pdf", 1, 0⟩],
   some [[1], [1]],
   [("a.pdf", [0]), ("b.pdf", [1])]⟩

/-- A store whose two chunks belong to the same document and have equal
embedding rows, so their similarities to any query tie. -/
def tieIdx : DocumentIndex :=
  ⟨[⟨"t0", "d.pdf", 1, 0⟩, ⟨"t1", "d.pdf", 1, 1⟩],
   some [[1], [1]],
   [("d.pdf", [0, 1])]⟩

/-- A store holding a single chunk whose embedding is the zero vector. -/
def zeroVecIdx : DocumentIndex :=
  ⟨[⟨"tz", "z.pdf", 1, 0⟩], some [[0]], [("z.pdf", [0])]⟩

/-- Witness for C1 at a concrete store, filter and query. -/
theorem C1_search_filters_before_ranking_witness :
    (sampleIdx.embeddings = some [[1], [1]] ∧
      ([[1], [1]] : List Vec).length = sampleIdx.chunks.length) ∧
    ((∀ r ∈ sampleIdx.search sqrtId encodeOne "q" 5 (some ["a.pdf"]),
        r.document ∈ ["a.pdf"]) ∧
      (sampleIdx.search sqrtId encodeOne "q" 5 (some ["a.pdf"])).length ≤ 5 ∧
      (sampleIdx.search sqrtId encodeOne "q" 5 (some ["a.pdf"])).length =
        min 5 (sampleIdx.chunks.filter (fun c => decide (c.document ∈ ["a.pdf"]))).length ∧
      (∀ r ∈ sampleIdx.search sqrtId encodeOne "q" 5 (some ["a.pdf"]),
        ∀ j < sampleIdx.chunks.length,
        (sampleIdx.chunks.getD j default).document ∈ ["a.pdf"] →
        (∀ r2 ∈ sampleIdx.search sqrtId encodeOne "q" 5 (some ["a.pdf"]),
          r2.chunk_index ≠ j) →
        leSimVal ((simsOf sqrtId encodeOne sampleIdx "q").getD j none)
          r.similarity = true)) ∧
    sampleIdx.search sqrtId encodeOne "q" 5 (some ["a.pdf"]) =
      [⟨"text a", "a.pdf", 1, 0, some 1, 0⟩] := by
  refine ⟨⟨rfl, rfl⟩, ?_, ?_⟩
  · exact C1_search_filters_before_ranking sqrtId encodeOne sampleIdx "q" 5
      ["a.pdf"] [[1], [1]] rfl rfl
  · simp [sampleIdx, DocumentIndex.search, simsOf, cosineSimRow, dotProd, sumSq,
      filteredIndices, topIdx, argsortStable, List.range_succ, insertIdx, leSimVal,
      mkResult, sqrtId, encodeOne]

/-- C6 counterexample: on a store with two equal-similarity chunks the
first returned result is the later-inserted chunk (index 1), not the
earlier one, refuting the earlier-inserted-first tie rule. -/
theorem C6_counterexample_tie_order :
    (tieIdx.search sqrtId encodeOne "q" 5 none).map (fun r => r.chunk_index) =
      [1, 0] ∧
    (tieIdx.search sqrtId encodeOne "q" 5 none).map (fun r => r.similarity) =
      [some 1, some 1] := by
  constructor <;>
    simp [tieIdx, DocumentIndex.search, simsOf, cosineSimRow, dotProd, sumSq,
      topIdx, argsortStable, List.range_succ, insertIdx, leSimVal, mkResult,
      sqrtId, encodeOne]

/-- C6 amended: results are ordered by descending similarity, and whenever
two results have equal similarity the later-inserted chunk (larger store
index) is ranked first — the source reverses a stable ascending argsort,
which flips tie order.  The output is still deterministic for a fixed
store and query under the stable argsort model. -/
theorem C6_amended_descending_ties_later_first
    (sqrt : ℚ → ℚ) (encode : String → Vec) (idx : DocumentIndex)
    (query : String) (k : Nat) (allowed : Option (List String)) :
    (idx.search sqrt encode query k allowed).Pairwise
      (fun r1 r2 => leSimVal r2.similarity r1.similarity = true ∧
        (r1.similarity = r2.similarity → r2.chunk_index < r1.chunk_index)) := by
  by_cases hg : idx.chunks = [] ∨ idx.embeddings = none
  · unfold DocumentIndex.search
    rw [if_pos hg]
    exact List.Pairwise.nil
  push_neg at hg
  have hc : idx.chunks ≠ [] := hg.1
  obtain ⟨E, hE⟩ : ∃ E, idx.embeddings = some E := Option.ne_none_iff_exists'.mp hg.2
  set sims := simsOf sqrt encode idx query with hsims
  cases allowed with
  | none =>
      rw [search_none_eq sqrt encode idx query k E hE hc, List.pairwise_map]
      refine List.Pairwise.imp_of_mem ?_ (topIdx_pairwise sims k)
      intro p1 p2 _ _ hQ
      refine ⟨hQ.1, ?_⟩
      intro heq
      apply hQ.2
      have heq2 : sims.getD p1 none = sims.getD p2 none := heq
      rw [heq2]
      exact leSimVal_refl _
  | some F =>
      by_cases hF : F = []
      · subst hF
        unfold DocumentIndex.search
        rw [if_neg (by simp [hc, hE]), if_pos rfl]
        exact List.Pairwise.nil
      rw [search_some_eq sqrt encode idx query k F E hE hc hF]
      set FI := filteredIndices idx.chunks F with hFI
      set fsims := FI.map (fun i => sims.getD i none) with hfsims
      by_cases hFIe : FI = []
      · rw [if_pos hFIe]
        exact List.Pairwise.nil
      rw [if_neg hFIe, List.map_map, List.pairwise_map]
      have halign : ∀ p, p < FI.length → fsims.getD p none = sims.getD (FI.getD p 0) none := by
        intro p hp
        rw [hfsims]
        exact getD_map_lt FI (fun i => sims.getD i none) 0 hp
      refine List.Pairwise.imp_of_mem ?_ (topIdx_pairwise fsims k)
      intro p1 p2 h1 h2 hQ
      have hp1 : p1 < FI.length := by
        have := mem_topIdx_lt h1
        simpa [hfsims] using this
      have hp2 : p2 < FI.length := by
        have := mem_topIdx_lt h2
        simpa [hfsims] using this
      constructor
      · have := hQ.1
        rwa [halign p1 hp1, halign p2 hp2] at this
      · intro heq
        have heqf : fsims.getD p1 none = fsims.getD p2 none := by
          rw [halign p1 hp1, halign p2 hp2]
          exact heq
        have hlt : p2 < p1 := by
          apply hQ.2
          rw [heqf]
          exact leSimVal_refl _
        exact filteredIndices_getD_lt hp2 hp1 hlt

/-- C7 counterexample: a store whose single chunk has a zero embedding
vector.  The similarity denominator is zero, the division yields NaN
(`none`), and `search` still returns that chunk — carrying the undefined
similarity — instead of excluding it. -/
theorem C7_counterexample_zero_vector_not_excluded :
    zeroVecIdx.search sqrtId encodeOne "q" 5 none =
      [⟨"tz", "z.pdf", 1, 0, none, 0⟩] := by
  simp [zeroVecIdx, DocumentIndex.search, simsOf, cosineSimRow, dotProd, sumSq,
    topIdx, argsortStable, List.range_succ, insertIdx, leSimVal, mkResult,
    sqrtId, encodeOne]

/-- C7 amended: when the embedding row of a chunk (or the query vector) has
zero norm, the computed similarity is NaN (`none`), and — provided
`top_k` covers the store — the affected chunk still appears in the
results of an unrestricted search, with the NaN similarity attached; it
is not excluded and nothing is raised.  `sqrt 0 = 0` is the IEEE sqrt
fact used. -/
theorem C7_amended_nan_propagates
    (sqrt : ℚ → ℚ) (encode : String → Vec) (idx : DocumentIndex)
    (query : String) (k : Nat) (E : List Vec)
    (hE : idx.embeddings = some E) (hlen : E.length = idx.chunks.length)
    (hk : idx.chunks.length ≤ k) (i : Nat) (hi : i < idx.chunks.length)
    (hsqrt0 : sqrt 0 = 0)
    (hzero : sumSq (E.getD i []) = 0 ∨ sumSq (encode query) = 0) :
    ∃ r ∈ idx.search sqrt encode query k none,
      r.chunk_index = i ∧ r.similarity = none := by
  have hc : idx.chunks ≠ [] := by
    intro h0
    rw [h0] at hi
    exact absurd hi (by simp)
  rw [search_none_eq sqrt encode idx query k E hE hc]
  set sims := simsOf sqrt encode idx query with hsims
  have hslen : sims.length = idx.chunks.length := by
    rw [hsims]
    unfold simsOf
    rw [hE]
    simpa using hlen
  have hiE : i < E.length := by omega
  have hsimi : sims.getD i none = cosineSimRow sqrt (encode query) (E.getD i []) := by
    rw [hsims]
    unfold simsOf
    rw [hE]
    exact getD_map_lt E (fun row => cosineSimRow sqrt (encode query) row) [] hiE
  have hnan : sims.getD i none = none := by
    rw [hsimi]
    unfold cosineSimRow
    rcases hzero with hz | hz
    · rw [hz, hsqrt0, zero_mul, if_pos rfl]
    · rw [hz, hsqrt0, mul_zero, if_pos rfl]
  have hitop : i ∈ topIdx sims k := by
    unfold topIdx
    have hall : (argsortStable sims).reverse.take k = (argsortStable sims).reverse := by
      apply List.take_of_length_le
      rw [List.length_reverse, (argsortStable_perm sims).length_eq, List.length_range]
      omega
    rw [hall, List.mem_reverse]
    exact mem_argsortStable.mpr (by omega)
  refine ⟨mkResult (idx.chunks.getD i default) (sims.getD i none) i, ?_, rfl, hnan⟩
  exact List.mem_map.mpr ⟨i, hitop, rfl⟩

/-- Witness for the amended C7 at the concrete zero-vector store. -/
theorem C7_amended_nan_propagates_witness :
    (zeroVecIdx.embeddings = some [[0]] ∧
      ([[0]] : List Vec).length = zeroVecIdx.chunks.length ∧
      zeroVecIdx.chunks.length ≤ 5 ∧ (0 : Nat) < zeroVecIdx.chunks.length ∧
      sqrtId 0 = 0 ∧ sumSq (([[0]] : List Vec).getD 0 []) = 0) ∧
    ∃ r ∈ zeroVecIdx.search sqrtId encodeOne "q" 5 none,
      r.chunk_index = 0 ∧ r.similarity = none := by
  refine ⟨⟨rfl, rfl, by decide, by decide, rfl, by simp [sumSq, dotProd]⟩, ?_⟩
  exact C7_amended_nan_propagates sqrtId encodeOne zeroVecIdx "q" 5 [[0]] rfl rfl
    (by decide) 0 (by decide) rfl (Or.inl (by simp [sumSq, dotProd]))

/-! ## Lemmas about the conversation dict -/

theorem find?_map_append (l : ConvState) (u : String) (t : Turn) :
    (l.map (fun p : String × List Turn =>
        if p.1 == u then (p.1, p.2 ++ [t]) else p)).find? (fun p => p.1 == u) =
      (l.find? (fun p => p.1 == u)).map (fun p => (p.1, p.2 ++ [t])) := by
  induction l with
  | nil => rfl
  | cons a tl ih =>
    simp only [List.map_cons]
    by_cases h : (a.1 == u) = true
    · rw [if_pos h,
        List.find?_cons_of_pos
          (tl.map (fun p : String × List Turn => if p.1 == u then (p.1, p.2 ++ [t]) else p))
          (show (fun (p : String × List Turn) => p.1 == u) (a.1, a.2 ++ [t]) = true from h),
        List.find?_cons_of_pos tl
          (show (fun (p : String × List Turn) => p.1 == u) a = true from h)]
      rfl
    · rw [if_neg h,
        List.find?_cons_of_neg
          (tl.map (fun p : String × List Turn => if p.1 == u then (p.1, p.2 ++ [t]) else p))
          (show ¬(fun (p : String × List Turn) => p.1 == u) a = true from h),
        List.find?_cons_of_neg tl
          (show ¬(fun (p : String × List Turn) => p.1 == u) a = true from h), ih]

theorem find?_map_clear (l : ConvState) (u : String) :
    (l.map (fun p : String × List Turn =>
        if p.1 == u then (p.1, ([] : List Turn)) else p)).find? (fun p => p.1 == u) =
      (l.find? (fun p => p.1 == u)).map (fun p => (p.1, ([] : List Turn))) := by
  induction l with
  | nil => rfl
  | cons a tl ih =>
    simp only [List.map_cons]
    by_cases h : (a.1 == u) = true
    · rw [if_pos h,
        List.find?_cons_of_pos
          (tl.map (fun p : String × List Turn => if p.1 == u then (p.1, ([] : List Turn)) else p))
          (show (fun (p : String × List Turn) => p.1 == u) (a.1, ([] : List Turn)) = true from h),
        List.find?_cons_of_pos tl
          (show (fun (p : String × List Turn) => p.1 == u) a = true from h)]
      rfl
    · rw [if_neg h,
        List.find?_cons_of_neg
          (tl.map (fun p : String × List Turn => if p.1 == u then (p.1, ([] : List Turn)) else p))
          (show ¬(fun (p : String × List Turn) => p.1 == u) a = true from h),
        List.find?_cons_of_neg tl
          (show ¬(fun (p : String × List Turn) => p.1 == u) a = true from h), ih]

theorem find?_eq_none_of_not_dictMem {conv : ConvState} {u : String}
    (h : dictMem conv u = false) : conv.find? (fun p => p.1 == u) = none := by
  rw [List.find?_eq_none]
  intro p hp
  have := (List.any_eq_false).mp h p hp
  simpa using this

theorem get_conversation_history_add (conv : ConvState) (u q a c : String) :
    get_conversation_history (add_to_conversation conv u q a c) u =
      get_conversation_history conv u ++ [⟨q, a, c⟩] := by
  by_cases h : dictMem conv u
  · have hadd : add_to_conversation conv u q a c =
        conv.map (fun p : String × List Turn =>
          if p.1 == u then (p.1, p.2 ++ [Turn.mk q a c]) else p) := by
      unfold add_to_conversation
      rw [if_pos h]
    rw [hadd]
    unfold get_conversation_history
    rw [find?_map_append conv u (Turn.mk q a c)]
    obtain ⟨p, hp, hpu⟩ : ∃ p ∈ conv, (p.1 == u) = true := by
      simpa [dictMem, List.any_eq_true] using h
    have hsome : (conv.find? (fun pr : String × List Turn => pr.1 == u)).isSome = true :=
      List.find?_isSome.mpr ⟨p, hp, hpu⟩
    obtain ⟨pr, hpr⟩ := Option.isSome_iff_exists.mp hsome
    rw [hpr]
    rfl
  · have hadd : add_to_conversation conv u q a c =
        (conv ++ [(u, [])]).map (fun p : String × List Turn =>
          if p.1 == u then (p.1, p.2 ++ [Turn.mk q a c]) else p) := by
      unfold add_to_conversation
      rw [if_neg h]
    rw [hadd]
    unfold get_conversation_history
    rw [List.map_append, List.find?_append, find?_map_append conv u (Turn.mk q a c),
      find?_eq_none_of_not_dictMem (by simpa using h)]
    simp

theorem clear_conversation_noop {conv : ConvState} {u : String}
    (h : dictMem conv u = false) : clear_conversation conv u = conv := by
  unfold clear_conversation
  rw [h]
  rfl

theorem get_conversation_history_clear (conv : ConvState) (u : String) :
    get_conversation_history (clear_conversation conv u) u = [] := by
  by_cases h : dictMem conv u
  · have hcl : clear_conversation conv u =
        conv.map (fun p : String × List Turn =>
          if p.1 == u then (p.1, ([] : List Turn)) else p) := by
      unfold clear_conversation
      rw [if_pos h]
    rw [hcl]
    unfold get_conversation_history
    rw [find?_map_clear conv u]
    cases conv.find? (fun p => p.1 == u) with
    | none => rfl
    | some pr => rfl
  · rw [clear_conversation_noop (by simpa using h)]
    unfold get_conversation_history
    rw [find?_eq_none_of_not_dictMem (by simpa using h)]

/-- C9: clearing the conversation of a user makes the subsequently built context
string empty for every `max_entries`, and clearing for a user with no
existing history leaves the store untouched (a no-op, not an error). -/
theorem C9_clear_then_empty_context (conv : ConvState) (u : String) (n : Nat) :
    build_context_string (clear_conversation conv u) u n = "" ∧
    (dictMem conv u = false → clear_conversation conv u = conv) := by
  constructor
  · unfold build_context_string
    rw [get_conversation_history_clear]
    simp
  · exact fun h => clear_conversation_noop h

/-- Witness for C9 at a concrete store: a user with history that is
cleared, and a user absent from the dict for which clear is the identity. -/
theorem C9_clear_then_empty_context_witness :
    build_context_string
        (clear_conversation [("v", [⟨"q0", "a0", ""⟩])] "v") "v" 7 = "" ∧
    dictMem [("v", [⟨"q0", "a0", ""⟩])] "u" = false ∧
    clear_conversation [("v", [⟨"q0", "a0", ""⟩])] "u" =
      [("v", [⟨"q0", "a0", ""⟩])] := by
  refine ⟨(C9_clear_then_empty_context _ "v" 7).1, by decide, ?_⟩
  exact (C9_clear_then_empty_context [("v", [⟨"q0", "a0", ""⟩])] "u" 7).2 (by decide)

/-! ## The company-mention pre-check -/

/-- The filename-stem extension loop never adds an entry: every document
name in `docNameList` is already a value of `company_mapping`, so the
`doc_name not in company_mapping.values()` conjunct is always false. -/
theorem extendMapping_eq (query_lower : String) :
    extendMapping query_lower = company_mapping := by
  have step : ∀ (m : List (String × String)) (d : String),
      m.any (fun p => p.2 == d) = true →
      (if pyIn (docBase d) query_lower && !(m.any (fun p => p.2 == d)) then
        m ++ [(docBase d, d)] else m) = m := by
    intro m d hm
    rw [hm]
    simp
  unfold extendMapping docNameList
  rw [List.foldl_cons, step _ _ (by decide), List.foldl_cons, step _ _ (by decide),
    List.foldl_cons, step _ _ (by decide), List.foldl_cons, step _ _ (by decide),
    List.foldl_cons, step _ _ (by decide), List.foldl_nil]

/-- The refusal condition of `answer_query` — a non-empty
`unauthorized_mentions` list — holds exactly when some entry of the literal
company mapping has its key in the lowercased query and its document
outside the allowed list. -/
theorem unauthorizedMentions_ne_nil_iff (query : String) (allowed : List String) :
    unauthorizedMentions query allowed ≠ [] ↔
      ∃ p ∈ company_mapping, pyIn p.1 (pyLower query) = true ∧ p.2 ∉ allowed := by
  unfold unauthorizedMentions mentionedCompanies
  rw [extendMapping_eq]
  constructor
  · intro hne
    obtain ⟨x, hx⟩ := List.exists_mem_of_ne_nil _ hne
    obtain ⟨p, hp, _⟩ := List.mem_map.mp hx
    have hp1 := List.mem_filter.mp hp
    have hp2 := List.mem_filter.mp hp1.1
    refine ⟨p, hp2.1, hp2.2, ?_⟩
    have := hp1.2
    simpa using this
  · intro ⟨p, hp, hin, hout⟩
    intro hnil
    rw [List.map_eq_nil_iff] at hnil
    have : p ∈ List.filter (fun p => !allowed.contains p.2)
        (List.filter (fun p => pyIn p.1 (pyLower query)) company_mapping) := by
      rw [List.mem_filter, List.mem_filter]
      exact ⟨⟨hp, hin⟩, by simpa using hout⟩
    rw [hnil] at this
    exact absurd this (List.not_mem_nil p)

/-- C2: when the lowercased query contains a recognized company or
document-stem token whose mapped document is not in the allowed
set, `answer_query` short-circuits: it returns the refusal answer naming
the unauthorized mentions and listing the accessible documents of the user,
with empty sources and `context_used = false`, performs no search call,
and leaves the conversation state untouched — all independently of the
index contents, the history and the `use_context` flag. -/
theorem C2_unauthorized_mention_short_circuit
    (sqrt : ℚ → ℚ) (encode : String → Vec) (idx : DocumentIndex)
    (conv : ConvState) (user_email query : String) (use_context : Bool)
    (h : ∃ p ∈ company_mapping, pyIn p.1 (pyLower query) = true ∧
      p.2 ∉ get_allowed_documents_set user_email) :
    answer_query sqrt encode idx conv user_email query use_context =
      { answer := refusalAnswer
          (unauthorizedMentions query (get_allowed_documents_set user_email))
          (get_allowed_documents_set user_email),
        sources := [], context_used := false, conv := conv, searches := [] } := by
  have hne : unauthorizedMentions query (get_allowed_documents_set user_email) ≠ [] :=
    (unauthorizedMentions_ne_nil_iff query (get_allowed_documents_set user_email)).mpr h
  unfold answer_query
  rw [if_pos hne]

/-- Witness for C2: alice (allowed only document A) asks about company B;
the refusal names COMPANY B, the sources are empty, no search runs, and
the conversation is untouched. -/
theorem C2_unauthorized_mention_short_circuit_witness :
    (∃ p ∈ company_mapping, pyIn p.1 (pyLower "What about Company B?") = true ∧
      p.2 ∉ get_allowed_documents_set "alice@email.com") ∧
    answer_query sqrtId encodeOne sampleIdx [] "alice@email.com"
        "What about Company B?" true =
      { answer := refusalAnswer
          (unauthorizedMentions "What about Company B?"
            (get_allowed_documents_set "alice@email.com"))
          (get_allowed_documents_set "alice@email.com"),
        sources := [], context_used := false, conv := [], searches := [] } ∧
    unauthorizedMentions "What about Company B?"
        (get_allowed_documents_set "alice@email.com") = ["COMPANY B"] := by
  have h : ∃ p ∈ company_mapping, pyIn p.1 (pyLower "What about Company B?") = true ∧
      p.2 ∉ get_allowed_documents_set "alice@email.com" :=
    ⟨("company b", "company_b_earnings.pdf"), by decide, by decide, by decide⟩
  refine ⟨h, C2_unauthorized_mention_short_circuit sqrtId encodeOne sampleIdx []
    "alice@email.com" "What about Company B?" true h, ?_⟩
  unfold unauthorizedMentions mentionedCompanies
  rw [extendMapping_eq]
  decide

/-! ## Claims C8, C4, C5 about `answer_query` -/

/-- C8: a short-circuiting call leaves the conversation dict untouched;
every other call appends exactly one turn — the original query, the final
answer, and the semicolon-joined source document labels — to the calling
history of the calling user. -/
theorem C8_conversation_recording
    (sqrt : ℚ → ℚ) (encode : String → Vec) (idx : DocumentIndex)
    (conv : ConvState) (user_email query : String) (use_context : Bool) :
    (answer_query sqrt encode idx conv user_email query use_context).conv =
      (if unauthorizedMentions query (get_allowed_documents_set user_email) ≠ [] then
        conv
       else
        add_to_conversation conv user_email query
          (answer_query sqrt encode idx conv user_email query use_context).answer
          (pyJoin "; "
            ((answer_query sqrt encode idx conv user_email query use_context).sources.map
              (fun s => s.document)))) ∧
    (get_conversation_history
        (answer_query sqrt encode idx conv user_email query use_context).conv
        user_email).length =
      (get_conversation_history conv user_email).length +
        (if unauthorizedMentions query (get_allowed_documents_set user_email) ≠ []
         then 0 else 1) := by
  by_cases hne : unauthorizedMentions query (get_allowed_documents_set user_email) ≠ []
  · have hA : answer_query sqrt encode idx conv user_email query use_context =
        { answer := refusalAnswer
            (unauthorizedMentions query (get_allowed_documents_set user_email))
            (get_allowed_documents_set user_email),
          sources := [], context_used := false, conv := conv, searches := [] } := by
      unfold answer_query
      rw [if_pos hne]
    rw [hA, if_pos hne, if_pos hne]
    simp
  · unfold answer_query
    rw [if_neg hne, if_neg hne, if_neg hne]
    constructor
    · rfl
    · rw [get_conversation_history_add]
      simp

/-- C4: in every non-short-circuited call, the emitted sources are exactly
the first three retrieval results that pass both the defense filter and
the `similarity >= 0.40` threshold (so every below-threshold result is
dropped before answer assembly and every surviving one has similarity at
least 0.40, the boundary included); when retrieval returned results but
none survives, the answer is the below-threshold message naming the 0.40
threshold and listing the accessible documents of the user, with empty
sources; and when survivors exist the answer is assembled from exactly
their top three texts. -/
theorem C4_similarity_threshold
    (sqrt : ℚ → ℚ) (encode : String → Vec) (idx : DocumentIndex)
    (conv : ConvState) (user_email query : String) (use_context : Bool)
    (h : unauthorizedMentions query (get_allowed_documents_set user_email) = []) :
    (∀ s ∈ (answer_query sqrt encode idx conv user_email query use_context).sources,
      passesThreshold s.similarity = true) ∧
    (answer_query sqrt encode idx conv user_email query use_context).sources =
      ((survivorsOf (get_allowed_documents_set user_email)
          (retrievalStage sqrt encode idx conv user_email query use_context
            (get_allowed_documents_set user_email)).1).take 3).map
        (fun r => ⟨r.document, r.page, r.similarity⟩) ∧
    ((retrievalStage sqrt encode idx conv user_email query use_context
        (get_allowed_documents_set user_email)).1 ≠ [] →
      survivorsOf (get_allowed_documents_set user_email)
        (retrievalStage sqrt encode idx conv user_email query use_context
          (get_allowed_documents_set user_email)).1 = [] →
      (answer_query sqrt encode idx conv user_email query use_context).answer =
        thresholdMessage (get_allowed_documents_set user_email) ∧
      (answer_query sqrt encode idx conv user_email query use_context).sources = []) ∧
    ((retrievalStage sqrt encode idx conv user_email query use_context
        (get_allowed_documents_set user_email)).1 ≠ [] →
      survivorsOf (get_allowed_documents_set user_email)
        (retrievalStage sqrt encode idx conv user_email query use_context
          (get_allowed_documents_set user_email)).1 ≠ [] →
      (answer_query sqrt encode idx conv user_email query use_context).answer =
        (if (pyJoin "\n\n" (((survivorsOf (get_allowed_documents_set user_email)
              (retrievalStage sqrt encode idx conv user_email query use_context
                (get_allowed_documents_set user_email)).1).take 3).map
              (fun r => r.text))).length > 1000 then
          (pyJoin "\n\n" (((survivorsOf (get_allowed_documents_set user_email)
              (retrievalStage sqrt encode idx conv user_email query use_context
                (get_allowed_documents_set user_email)).1).take 3).map
              (fun r => r.text))).take 1000 ++ "..."
         else
          pyJoin "\n\n" (((survivorsOf (get_allowed_documents_set user_email)
              (retrievalStage sqrt encode idx conv user_email query use_context
                (get_allowed_documents_set user_email)).1).take 3).map
              (fun r => r.text)))) := by
  set allowed := get_allowed_documents_set user_email with hallowed
  set res := (retrievalStage sqrt encode idx conv user_email query use_context allowed).1
    with hres
  have hA : answer_query sqrt encode idx conv user_email query use_context =
      { answer := (if res ≠ [] then composeFromResults allowed res
          else (noResultsMessage, [])).1,
        sources := (if res ≠ [] then composeFromResults allowed res
          else (noResultsMessage, [])).2,
        context_used := (retrievalStage sqrt encode idx conv user_email query
          use_context allowed).2.1,
        conv := add_to_conversation conv user_email query
          (if res ≠ [] then composeFromResults allowed res
            else (noResultsMessage, [])).1
          (pyJoin "; " ((if res ≠ [] then composeFromResults allowed res
            else (noResultsMessage, [])).2.map (fun s => s.document))),
        searches := (retrievalStage sqrt encode idx conv user_email query
          use_context allowed).2.2 } := by
    unfold answer_query
    rw [if_neg (by simp [h, hallowed])]
  rw [hA]
  by_cases hr : res = []
  · have hsurv : survivorsOf allowed res = [] := by
      rw [hr]
      rfl
    have h1 : (if res ≠ [] then composeFromResults allowed res
        else (noResultsMessage, [])) = (noResultsMessage, []) :=
      if_neg (by simpa using hr)
    rw [h1, hsurv]
    exact ⟨by simp, rfl, fun hcon => absurd hr hcon, fun hcon => absurd hr hcon⟩
  · have h1 : (if res ≠ [] then composeFromResults allowed res
        else (noResultsMessage, [])) = composeFromResults allowed res :=
      if_pos hr
    rw [h1]
    simp only [composeFromResults]
    by_cases hs : survivorsOf allowed res ≠ []
    · rw [if_pos hs]
      refine ⟨?_, rfl, fun _ hs2 => absurd hs2 hs, fun _ _ => rfl⟩
      intro s hsrc
      obtain ⟨r2, hr2, hr2s⟩ := List.mem_map.mp hsrc
      have hr2surv : r2 ∈ survivorsOf allowed res :=
        (List.take_sublist 3 _).mem hr2
      have := (List.mem_filter.mp hr2surv).2
      rw [← hr2s]
      exact this
    · rw [if_neg hs]
      push_neg at hs
      refine ⟨by simp, ?_, fun _ _ => ⟨rfl, rfl⟩, fun _ hs2 => absurd hs hs2⟩
      rw [hs]
      rfl

/-- An embedder orthogonal to the stored row, giving similarity 0. -/
def encodeOrtho : String → Vec := fun _ => [0, 1]

/-- A store with one chunk of document A whose row is orthogonal to the
query embedding, so the single retrieved similarity is 0 < 0.40. -/
def idxLow : DocumentIndex :=
  ⟨[⟨"low text", "company_a_earnings.pdf", 1, 0⟩], some [[1, 0]],
   [("company_a_earnings.pdf", [0])]⟩

/-- Witness for C4: alice queries her own document but the only result has
similarity 0, below the 0.40 threshold — the answer is the threshold
message listing her accessible documents and the sources are empty; the
boundary value 0.40 itself passes the threshold test. -/
theorem C4_similarity_threshold_witness :
    unauthorizedMentions "revenue growth"
        (get_allowed_documents_set "alice@email.com") = [] ∧
    passesThreshold (some MIN_SIMILARITY_THRESHOLD) = true ∧
    passesThreshold (some 0) = false ∧
    (answer_query sqrtId encodeOrtho idxLow [] "alice@email.com"
        "revenue growth" true).answer =
      thresholdMessage (get_allowed_documents_set "alice@email.com") ∧
    (answer_query sqrtId encodeOrtho idxLow [] "alice@email.com"
        "revenue growth" true).sources = [] := by
  have h : unauthorizedMentions "revenue growth"
      (get_allowed_documents_set "alice@email.com") = [] := by
    unfold unauthorizedMentions mentionedCompanies
    rw [extendMapping_eq]
    decide
  have hga : get_allowed_documents_set "alice@email.com" =
      ["company_a_earnings.pdf"] := by decide
  have hsearch : idxLow.search sqrtId encodeOrtho "revenue growth" 3
      (some ["company_a_earnings.pdf"]) =
      [⟨"low text", "company_a_earnings.pdf", 1, 0, some 0, 0⟩] := by
    simp [idxLow, DocumentIndex.search, simsOf, cosineSimRow, dotProd, sumSq,
      filteredIndices, topIdx, argsortStable, List.range_succ, insertIdx,
      leSimVal, mkResult, sqrtId, encodeOrtho]
  have hstage : (retrievalStage sqrtId encodeOrtho idxLow [] "alice@email.com"
      "revenue growth" true ["company_a_earnings.pdf"]).1 =
      [⟨"low text", "company_a_earnings.pdf", 1, 0, some 0, 0⟩] := by
    simp [retrievalStage, build_context_string, get_conversation_history, hsearch]
  have hsurv : survivorsOf ["company_a_earnings.pdf"]
      [(⟨"low text", "company_a_earnings.pdf", 1, 0, some 0, 0⟩ : SearchResult)] = [] := by
    decide
  have hC := C4_similarity_threshold sqrtId encodeOrtho idxLow []
    "alice@email.com" "revenue growth" true h
  rw [hga] at hC
  rw [hstage] at hC
  have hout := hC.2.2.1 (by simp) (by rw [hsurv])
  refine ⟨h, by decide, by decide, ?_, ?_⟩
  · rw [hga]
    exact hout.1
  · exact hout.2

theorem pyJoin_cons_length (sep a : String) (l : List String) :
    a.length ≤ (pyJoin sep (a :: l)).length := by
  cases l with
  | nil => simp [pyJoin]
  | cons b r =>
    simp only [pyJoin, String.length_append]
    omega

/-- A user with non-empty history always gets a non-empty context string:
the joined parts start with a `Previous question:` line. -/
theorem build_context_string_ne_empty (conv : ConvState) (u : String)
    (hh : get_conversation_history conv u ≠ []) :
    build_context_string conv u 3 ≠ "" := by
  unfold build_context_string
  rw [if_neg hh]
  have h3 : ¬((3 : Nat) = 0) := by omega
  rw [if_neg h3]
  have hlen1 : 1 ≤ (get_conversation_history conv u).length :=
    List.length_pos.mpr hh
  set recent := (get_conversation_history conv u).drop
    ((get_conversation_history conv u).length - 3) with hrecent
  have hrec : recent ≠ [] := by
    rw [hrecent]
    intro hcon
    rw [List.drop_eq_nil_iff] at hcon
    omega
  cases hre : recent with
  | nil => exact absurd hre hrec
  | cons a rest =>
    intro hcon0
    have hcon : pyJoin "\n" ((a :: rest).flatMap contextPartsOf) = "" := hcon0
    have hflat : (a :: rest).flatMap contextPartsOf =
        ("Previous question: " ++ a.query) ::
          ("Previous answer: " ++ a.answer.take 200 ++ "...") ::
          rest.flatMap contextPartsOf := by
      simp [contextPartsOf]
    rw [hflat] at hcon
    have hb := pyJoin_cons_length "\n" ("Previous question: " ++ a.query)
      (("Previous answer: " ++ a.answer.take 200 ++ "...") :: rest.flatMap contextPartsOf)
    rw [hcon] at hb
    rw [String.length_append] at hb
    have h19 : ("Previous question: " : String).length = 19 := by decide
    have h0 : ("" : String).length = 0 := by decide
    omega

/-- The source lines `if not search_results and context_used`: when the
context-fused retrieval is empty, `answer_query` retries exactly once with
the raw query and forces `context_used` to false. -/
theorem retrievalStage_fallback (sqrt : ℚ → ℚ) (encode : String → Vec)
    (idx : DocumentIndex) (conv : ConvState) (user_email : String)
    (allowed : List String) (query : String)
    (hcs : build_context_string conv user_email 3 ≠ "")
    (hfail : idx.search sqrt encode
      (fusedQuery query (build_context_string conv user_email 3)) 3
      (some allowed) = []) :
    retrievalStage sqrt encode idx conv user_email query true allowed =
      (idx.search sqrt encode query 3 (some allowed), false,
        [fusedQuery query (build_context_string conv user_email 3), query]) := by
  simp only [retrievalStage, if_true]
  rw [if_pos hcs]
  simp only [hfail]
  rw [if_pos (by simp)]

/-- C5: with non-empty history and `use_context = true`, when retrieval on
the fused query is empty, `answer_query` performs exactly one retry — the
trace is the fused query followed by the raw query — the returned
`context_used` is false regardless of the outcome of the retry, and the
answer/sources are assembled from the raw-query results. -/
theorem C5_context_fallback_retry (sqrt : ℚ → ℚ) (encode : String → Vec)
    (idx : DocumentIndex) (conv : ConvState) (user_email query : String)
    (h : unauthorizedMentions query (get_allowed_documents_set user_email) = [])
    (hh : get_conversation_history conv user_email ≠ [])
    (hfail : idx.search sqrt encode
      (fusedQuery query (build_context_string conv user_email 3)) 3
      (some (get_allowed_documents_set user_email)) = []) :
    (answer_query sqrt encode idx conv user_email query true).context_used = false ∧
    (answer_query sqrt encode idx conv user_email query true).searches =
      [fusedQuery query (build_context_string conv user_email 3), query] ∧
    ((answer_query sqrt encode idx conv user_email query true).answer,
      (answer_query sqrt encode idx conv user_email query true).sources) =
      (if idx.search sqrt encode query 3
          (some (get_allowed_documents_set user_email)) ≠ [] then
        composeFromResults (get_allowed_documents_set user_email)
          (idx.search sqrt encode query 3
            (some (get_allowed_documents_set user_email)))
       else (noResultsMessage, [])) := by
  have hstage := retrievalStage_fallback sqrt encode idx conv user_email
    (get_allowed_documents_set user_email) query
    (build_context_string_ne_empty conv user_email hh) hfail
  have hA : answer_query sqrt encode idx conv user_email query true =
      { answer := (if (retrievalStage sqrt encode idx conv user_email query true
            (get_allowed_documents_set user_email)).1 ≠ [] then
          composeFromResults (get_allowed_documents_set user_email)
            (retrievalStage sqrt encode idx conv user_email query true
              (get_allowed_documents_set user_email)).1
         else (noResultsMessage, [])).1,
        sources := (if (retrievalStage sqrt encode idx conv user_email query true
            (get_allowed_documents_set user_email)).1 ≠ [] then
          composeFromResults (get_allowed_documents_set user_email)
            (retrievalStage sqrt encode idx conv user_email query true
              (get_allowed_documents_set user_email)).1
         else (noResultsMessage, [])).2,
        context_used := (retrievalStage sqrt encode idx conv user_email query true
          (get_allowed_documents_set user_email)).2.1,
        conv := add_to_conversation conv user_email query
          (if (retrievalStage sqrt encode idx conv user_email query true
              (get_allowed_documents_set user_email)).1 ≠ [] then
            composeFromResults (get_allowed_documents_set user_email)
              (retrievalStage sqrt encode idx conv user_email query true
                (get_allowed_documents_set user_email)).1
           else (noResultsMessage, [])).1
          (pyJoin "; " ((if (retrievalStage sqrt encode idx conv user_email query true
              (get_allowed_documents_set user_email)).1 ≠ [] then
            composeFromResults (get_allowed_documents_set user_email)
              (retrievalStage sqrt encode idx conv user_email query true
                (get_allowed_documents_set user_email)).1
           else (noResultsMessage, [])).2.map (fun s => s.document))),
        searches := (retrievalStage sqrt encode idx conv user_email query true
          (get_allowed_documents_set user_email)).2.2 } := by
    unfold answer_query
    rw [if_neg (by simp [h])]
  rw [hA, hstage]
  exact ⟨rfl, rfl, rfl⟩

/-- Witness for C5: a user with one turn of history and no document access
asks a fresh query with context on; the fused retrieval is empty, the
model retries once with the raw query, and `context_used` comes back
false with the no-results answer. -/
theorem C5_context_fallback_retry_witness :
    unauthorizedMentions "hello" (get_allowed_documents_set "u1") = [] ∧
    get_conversation_history [("u1", [⟨"q0", "a0", ""⟩])] "u1" ≠ [] ∧
    (answer_query sqrtId encodeOne sampleIdx [("u1", [⟨"q0", "a0", ""⟩])]
        "u1" "hello" true).context_used = false ∧
    (answer_query sqrtId encodeOne sampleIdx [("u1", [⟨"q0", "a0", ""⟩])]
        "u1" "hello" true).searches =
      [fusedQuery "hello"
        (build_context_string [("u1", [⟨"q0", "a0", ""⟩])] "u1" 3), "hello"] ∧
    (answer_query sqrtId encodeOne sampleIdx [("u1", [⟨"q0", "a0", ""⟩])]
        "u1" "hello" true).answer = noResultsMessage := by
  have h : unauthorizedMentions "hello" (get_allowed_documents_set "u1") = [] := by
    unfold unauthorizedMentions mentionedCompanies
    rw [extendMapping_eq]
    decide
  have hh : get_conversation_history [("u1", [⟨"q0", "a0", ""⟩])] "u1" ≠ [] := by
    decide
  have hgu : get_allowed_documents_set "u1" = [] := by decide
  have hempty : ∀ q : String, sampleIdx.search sqrtId encodeOne q 3
      (some (get_allowed_documents_set "u1")) = [] := by
    intro q
    rw [hgu]
    unfold DocumentIndex.search
    rw [if_neg (by simp [sampleIdx]), if_pos rfl]
  have hC := C5_context_fallback_retry sqrtId encodeOne sampleIdx
    [("u1", [⟨"q0", "a0", ""⟩])] "u1" "hello" h hh (hempty _)
  refine ⟨h, hh, hC.1, hC.2.1, ?_⟩
  have hp := hC.2.2
  rw [hempty "hello"] at hp
  rw [if_neg (by simp)] at hp
  exact congrArg Prod.fst hp
